import Mathlib

/-
Verification of the forgeron header / fingerprint generator.

The Go source is shallowly embedded:
  - Go maps (map[string]string, map[string][]string, map[string]float64,
    map[string]interface coming from JSON) become association lists with
    first-match lookup; Go map iteration order is modelled as list order.
  - float64 probabilities become rationals.
  - the process-wide uniform random source rand.Float64 becomes an ambient
    stream rng : Nat -> Rat together with a threaded position counter; each
    call of the weighted sampler consumes one draw.
  - Go runtime panics (index out of range, failed type assertions) become
    Option results (none) or a dedicated panic constructor.
  - recursion that Go runs directly is given explicit fuel; an exhausted
    fuel is a distinguished result, and an adequacy theorem shows a
    computable fuel bound under which it never occurs.
-/

namespace Forgeron

/-- Model of a float64 weight: an unreduced fraction of integers.  The
probabilities in the network data and the uniform draws are finite decimal
values, all exactly representable; the engine only ever adds weights and
compares them, both of which this representation performs exactly and by
kernel-computable integer arithmetic.  Denominators are kept positive by
construction of all values used. -/
structure Frac where
  num : Int
  den : Int

/-- Addition of weights (common-denominator form, no reduction). -/
def Frac.add (a b : Frac) : Frac :=
  { num := a.num * b.den + b.num * a.den, den := a.den * b.den }

/-- Strict comparison a < b of weights with positive denominators. -/
def Frac.blt (a b : Frac) : Bool :=
  a.num * b.den < b.num * a.den

/-- The float64 value of an integer. -/
def Frac.ofInt (n : Int) : Frac :=
  { num := n, den := 1 }

/-- Association lists standing in for Go string-keyed maps. -/
abbrev StrMap := List (String × String)

def lookupKV {α : Type} : List (String × α) → String → Option α
  | [], _ => none
  | (k, v) :: rest, key => if k = key then some v else lookupKV rest key

/-- Go map read with the zero-value default for a missing key. -/
def getKV (m : StrMap) (key : String) : String :=
  (lookupKV m key).getD ""

def insertKV {α : Type} : List (String × α) → String → α → List (String × α)
  | [], key, v => [(key, v)]
  | (k, w) :: rest, key, v =>
    if k = key then (key, v) :: rest else (k, w) :: insertKV rest key v

def eraseKV {α : Type} : List (String × α) → String → List (String × α)
  | [], _ => []
  | (k, w) :: rest, key => if k = key then rest else (k, w) :: eraseKV rest key

@[simp] theorem lookupKV_nil {α : Type} (key : String) :
    lookupKV ([] : List (String × α)) key = none := rfl

@[simp] theorem lookupKV_insert_self {α : Type} (m : List (String × α)) (key : String) (v : α) :
    lookupKV (insertKV m key v) key = some v := by
  induction m with
  | nil => simp [insertKV, lookupKV]
  | cons kv rest ih =>
    obtain ⟨k, w⟩ := kv
    by_cases h : k = key
    · simp [insertKV, lookupKV, h]
    · simp [insertKV, lookupKV, h, ih]

theorem lookupKV_insert_ne {α : Type} (m : List (String × α)) (key key' : String) (v : α)
    (h : key' ≠ key) : lookupKV (insertKV m key v) key' = lookupKV m key' := by
  induction m with
  | nil => simp [insertKV, lookupKV, Ne.symm h]
  | cons kv rest ih =>
    obtain ⟨k, w⟩ := kv
    by_cases hk : k = key
    · subst hk
      simp [insertKV, lookupKV, Ne.symm h]
    · simp [insertKV, lookupKV, hk, ih]

theorem lookupKV_erase_ne {α : Type} (m : List (String × α)) (key key' : String)
    (h : key' ≠ key) : lookupKV (eraseKV m key) key' = lookupKV m key' := by
  induction m with
  | nil => simp [eraseKV]
  | cons kv rest ih =>
    obtain ⟨k, w⟩ := kv
    by_cases hk : k = key
    · subst hk
      simp [eraseKV, lookupKV, Ne.symm h]
    · simp [eraseKV, lookupKV, hk, ih]

/-- Dynamic JSON values as decoded into a Go map of interface values; only
numbers and nested objects matter to the CPT walk. -/
inductive JsonVal where
  | num (q : Frac)
  | str (s : String)
  | obj (fields : List (String × JsonVal))
  | other

/-- A node of the Bayesian network (source: part_001, struct node).  The
cached parent and child pointer fields are derived data not used by the
sampling operations and are omitted. -/
structure Node where
  name : String
  parentNames : List String
  possibleValues : List String
  conditionalProbs : List (String × JsonVal)

/-- The network keeps its nodes in sampling order (source: part_001,
struct bayesianNetwork).  The name index is only used by the diagnostic
operations getProbability and infer, which no claim touches. -/
structure BayesianNetwork where
  nodesInSamplingOrder : List Node

/-- Models the ok-checked type assertion probabilities["deeper"].(map). -/
def asObj : Option JsonVal → Option (List (String × JsonVal))
  | some (JsonVal.obj fields) => some fields
  | _ => none

/-- The descent loop of getProbabilitiesGivenKnownValues: for each parent in
declaration order, follow deeper[parentValue] when present, else the skip
branch.  A failed unchecked type assertion (next value or skip branch not an
object) is a Go panic, modelled as none. -/
def cptDescend (parentValues : StrMap) :
    List String → List (String × JsonVal) → Option (List (String × JsonVal))
  | [], probabilities => some probabilities
  | parentName :: rest, probabilities =>
    match asObj (lookupKV probabilities "deeper") with
    | none => cptDescend parentValues rest probabilities
    | some deeper =>
      match lookupKV deeper (getKV parentValues parentName) with
      | some next =>
        match next with
        | JsonVal.obj m => cptDescend parentValues rest m
        | _ => none
      | none =>
        match asObj (lookupKV probabilities "skip") with
        | some m => cptDescend parentValues rest m
        | none => none

/-- The final float-valued filtering pass of getProbabilitiesGivenKnownValues. -/
def leafProbs (fields : List (String × JsonVal)) : List (String × Frac) :=
  fields.filterMap fun kv =>
    match kv.2 with
    | JsonVal.num q => some (kv.1, q)
    | _ => none

/-- Source part_001 lines 61-81. -/
def getProbabilitiesGivenKnownValues (n : Node) (parentValues : StrMap) :
    Option (List (String × Frac)) :=
  (cptDescend parentValues n.parentNames n.conditionalProbs).map leafProbs

/-- Go map read probabilities[value] with zero default. -/
def getProb (probabilities : List (String × Frac)) (value : String) : Frac :=
  (lookupKV probabilities value).getD (Frac.ofInt 0)

/-- The cumulative scan of sampleRandomValueFromPossibilities: first value
whose cumulative probability strictly exceeds the anchor. -/
def scanForValue : List String → (String → Frac) → Frac → Frac → Option String
  | [], _, _, _ => none
  | value :: rest, probabilities, anchor, cumulative =>
    let cumulative := Frac.add cumulative (probabilities value)
    if Frac.blt anchor cumulative then some value
    else scanForValue rest probabilities anchor cumulative

/-- Source part_001 lines 84-94.  The anchor is the uniform draw.  On an
empty value list Go would evaluate possibleValues[0] and panic with an index
out of range; head? returning none models that panic. -/
def sampleRandomValueFromPossibilities (possibleValues : List String)
    (probabilities : String → Frac) (anchor : Frac) : Option String :=
  match scanForValue possibleValues probabilities anchor (Frac.ofInt 0) with
  | some value => some value
  | none => possibleValues.head?

/-- Source part_001 lines 97-104: unconditional sampling of one node.  The
possible values are the keys of the leaf distribution (Go map iteration,
modelled in list order).  none models a Go panic. -/
def Node.sample (n : Node) (parentValues : StrMap) (anchor : Frac) : Option String :=
  match getProbabilitiesGivenKnownValues n parentValues with
  | none => none
  | some probabilities =>
    sampleRandomValueFromPossibilities (probabilities.map Prod.fst)
      (getProb probabilities) anchor

/-- Source part_001 lines 107-141.  The outer none is a Go panic escaping
from the CPT walk; some none is the (empty string, false) return. -/
def sampleAccordingToRestrictions (n : Node) (parentValues : StrMap)
    (valuePossibilities : List String) (bannedValues : List String) (anchor : Frac) :
    Option (Option String) :=
  match getProbabilitiesGivenKnownValues n parentValues with
  | none => none
  | some probabilities =>
    let validValues := valuePossibilities.filter fun value =>
      !(bannedValues.contains value) && (lookupKV probabilities value).isSome
    if validValues.isEmpty then some none
    else
      let validProbs := validValues.map fun value => (value, getProb probabilities value)
      match sampleRandomValueFromPossibilities validValues (getProb validProbs) anchor with
      | some value => some (some value)
      | none => none

/-- The node loop of generateSample (source part_001 lines 153-157): nodes
already bound (seeded) are skipped, the rest is sampled in order.  rng is the
ambient random stream, ctr the current position in it. -/
def generateSampleAux (rng : Nat → Frac) :
    List Node → StrMap → Nat → Option (StrMap × Nat)
  | [], sample, ctr => some (sample, ctr)
  | n :: rest, sample, ctr =>
    match lookupKV sample n.name with
    | some _ => generateSampleAux rng rest sample ctr
    | none =>
      match Node.sample n sample (rng ctr) with
      | none => none
      | some value => generateSampleAux rng rest (insertKV sample n.name value) (ctr + 1)

/-- Source part_001 lines 144-159.  The Go code copies inputValues into a
fresh map before the loop; for an association list the copy is the list
itself. -/
def BayesianNetwork.generateSample (bn : BayesianNetwork) (inputValues : StrMap)
    (rng : Nat → Frac) (ctr : Nat) : Option (StrMap × Nat) :=
  generateSampleAux rng bn.nodesInSamplingOrder inputValues ctr

/-- Outcome of the backtracking search.  out means the explicit fuel ran
out (a modelling artifact, excluded by the fuel bound theorem); panic is a
Go runtime panic escaping from a malformed CPT; done carries the Go pair
(sample, ok) plus the advanced random stream position. -/
inductive RunRes where
  | out
  | panic
  | done (result : Option StrMap) (ctr : Nat)
deriving DecidableEq

/-- Source part_001 lines 172-216.  The depth argument of the Go code is
represented by the list of nodes still to be bound (the sampling-order
suffix).  The for loop is the recursive call that keeps the same node list
and extends bannedValues; both forms of recursion consume one unit of
fuel. -/
def recursivelyGenerateConsistentSampleWhenPossible (rng : Nat → Frac)
    (valuePossibilities : List (String × List String)) :
    Nat → List Node → StrMap → List String → Nat → RunRes
  | 0, _, _, _, _ => .out
  | fuel + 1, nodes, sampleSoFar, bannedValues, ctr =>
    match nodes with
    | [] => .done (some sampleSoFar) ctr
    | n :: rest =>
      let possibilities := (lookupKV valuePossibilities n.name).getD n.possibleValues
      match sampleAccordingToRestrictions n sampleSoFar possibilities bannedValues (rng ctr) with
      | none => .panic
      | some none => .done none ctr
      | some (some sampleValue) =>
        match recursivelyGenerateConsistentSampleWhenPossible rng valuePossibilities fuel
            rest (insertKV sampleSoFar n.name sampleValue) [] (ctr + 1) with
        | .out => .out
        | .panic => .panic
        | .done (some nextSample) c => .done (some nextSample) c
        | .done none c =>
          recursivelyGenerateConsistentSampleWhenPossible rng valuePossibilities fuel
            (n :: rest) (eraseKV (insertKV sampleSoFar n.name sampleValue) n.name)
            (bannedValues ++ [sampleValue]) c

/-- Computable fuel bound for the backtracking search: at each node the loop
runs at most once per candidate value, each iteration descending once. -/
def fuelBound (valuePossibilities : List (String × List String)) : List Node → Nat
  | [] => 1
  | n :: rest =>
    1 + ((lookupKV valuePossibilities n.name).getD n.possibleValues).length *
        (fuelBound valuePossibilities rest + 1)

/-- Source part_001 lines 162-170, run with the adequate fuel bound. -/
def BayesianNetwork.generateConsistentSampleWhenPossible (bn : BayesianNetwork)
    (valuePossibilities : List (String × List String)) (rng : Nat → Frac) (ctr : Nat) :
    RunRes :=
  recursivelyGenerateConsistentSampleWhenPossible rng valuePossibilities
    (fuelBound valuePossibilities bn.nodesInSamplingOrder)
    bn.nodesInSamplingOrder [] [] ctr

/-- Models Go strings.Split for the single-character separators the source
uses; written over character lists so that concrete inputs evaluate by
kernel reduction. -/
def splitOnCharAux (sep : Char) : List Char → List Char → List String
  | [], acc => [String.mk acc.reverse]
  | c :: rest, acc =>
    if c = sep then String.mk acc.reverse :: splitOnCharAux sep rest []
    else splitOnCharAux sep rest (c :: acc)

def splitOnChar (sep : Char) (s : String) : List String :=
  splitOnCharAux sep s.toList []

/-- Models strings.HasPrefix / String-level startsWith over character
lists. -/
def strStartsWith (s p : String) : Bool :=
  p.toList.isPrefixOf s.toList

/-- Source part_000 lines 31-36. -/
def SupportedBrowsers : List String := ["chrome", "firefox", "safari", "edge"]

def SupportedOS : List String := ["windows", "macos", "linux", "android", "ios"]

def SupportedDevices : List String := ["desktop", "mobile"]

def SupportedHTTP : List String := ["1", "2"]

/-- Source part_000 line 39. -/
def missingValueToken : String := "*MISSING_VALUE*"

/-- Source part_000 lines 42-47 (map modelled in declaration order). -/
def http1SecFetchAttributes : List (String × String) :=
  [("Sec-Fetch-Mode", "same-site"), ("Sec-Fetch-Dest", "navigate"),
   ("Sec-Fetch-Site", "?1"), ("Sec-Fetch-User", "document")]

/-- Source part_000 lines 50-55. -/
def http2SecFetchAttributes : List (String × String) :=
  [("sec-fetch-mode", "same-site"), ("sec-fetch-dest", "navigate"),
   ("sec-fetch-site", "?1"), ("sec-fetch-user", "document")]

/-- Source part_000 lines 10-15. -/
structure BrowserSpec where
  name : String := ""
  minVersion : Int := 0
  maxVersion : Int := 0
  httpVersion : String := ""
deriving DecidableEq

/-- Source part_000 lines 18-23. -/
structure HttpBrowser where
  name : Option String
  version : List Int
  completeString : String
  httpVersion : String
deriving DecidableEq

/-- Source part_000 lines 26-28. -/
def HttpBrowser.isHTTP2 (h : HttpBrowser) : Bool :=
  h.httpVersion == "2"

/-- Source part_000 lines 58-66.  Field defaults are the Go zero values, so
that a literal with a few fields set models a Go struct literal. -/
structure HeaderConstraints where
  browserSpecs : List BrowserSpec := []
  browsers : List String := []
  os : List String := []
  devices : List String := []
  locales : List String := []
  httpVersion : String := ""
  strict : Bool := false
deriving DecidableEq

/-- Source part_000 lines 78-87. -/
def defaultHeaderOptions : HeaderConstraints :=
  { browserSpecs := [], browsers := SupportedBrowsers, os := SupportedOS,
    devices := SupportedDevices, locales := ["en-US"], httpVersion := "2",
    strict := false }

/-- Source part_000 lines 452-459; the error is modelled as an Option
message. -/
def validateAgainstSupported (value : String) (supported : List String) : Option String :=
  if supported.contains value then none
  else some ("value " ++ value ++ " is not supported")

/-- Source part_000 lines 462-481.  The single pass that partitions values
into valid and invalid ones is written as two filters. -/
def filterValidValues (values supported : List String) : List String × Option String :=
  if values.isEmpty then ([], none)
  else
    let valid := values.filter fun v => supported.contains v
    let invalidValues := values.filter fun v => !(supported.contains v)
    if invalidValues.isEmpty then (valid, none)
    else (valid, some "the following values are not supported")

/-- The validateAndMerge helper inside mergeOptions: an empty user list is
skipped, survivors replace the current value only when some remain, the
validation error is collected either way. -/
def validateAndMerge (current userValues supported : List String) :
    List String × Option String :=
  if userValues.isEmpty then (current, none)
  else
    let res := filterValidValues userValues supported
    (if res.1.isEmpty then current else res.1, res.2)

/-- Source part_000 lines 90-138.  The generator field g.options is the
defaults argument; validation errors are accumulated in a list, an empty
list standing for the nil error. -/
def mergeOptions (defaults userOptions : HeaderConstraints) :
    HeaderConstraints × List String :=
  let b := validateAndMerge defaults.browsers userOptions.browsers SupportedBrowsers
  let o := validateAndMerge defaults.os userOptions.os SupportedOS
  let d := validateAndMerge defaults.devices userOptions.devices SupportedDevices
  let locales :=
    if userOptions.locales.isEmpty then defaults.locales
    else if userOptions.locales.length > 10 then userOptions.locales.take 10
    else userOptions.locales
  let h :=
    if userOptions.httpVersion = "" then (defaults.httpVersion, (none : Option String))
    else
      match validateAgainstSupported userOptions.httpVersion SupportedHTTP with
      | none => (userOptions.httpVersion, none)
      | some e => (defaults.httpVersion, some e)
  let validationErrors := b.2.toList ++ o.2.toList ++ d.2.toList ++ h.2.toList
  ({ browserSpecs := userOptions.browserSpecs, browsers := b.1, os := o.1,
     devices := d.1, locales := locales, httpVersion := h.1,
     strict := userOptions.strict }, validationErrors)

/-- Models fmt.Sscanf with a %d verb (source utils.go atoi): skip spaces,
read an optional sign and the longest digit prefix; when nothing matches the
result variable keeps its zero value. -/
def atoi (s : String) : Int :=
  let cs := s.toList.dropWhile fun c => c = ' '
  let signed : Bool := cs.headD ' ' == '-'
  let body := if signed || (cs.headD ' ' == '+') then cs.drop 1 else cs
  let digits := body.takeWhile Char.isDigit
  if digits.isEmpty then 0
  else
    let n : Nat := digits.foldl (fun acc c => acc * 10 + (c.toNat - 48)) 0
    if signed then -(Int.ofNat n) else Int.ofNat n

/-- Source part_000 lines 415-449.  Matching a two-element list models the
len(parts) != 2 checks after strings.Split. -/
def prepareHttpBrowserObject (httpBrowserString : String) : Option HttpBrowser :=
  if httpBrowserString = missingValueToken then
    some { name := none, version := [], completeString := missingValueToken,
           httpVersion := "" }
  else
    match splitOnChar '|' httpBrowserString with
    | [browserString, httpVersion] =>
      match splitOnChar '/' browserString with
      | [browserName, versionString] =>
        some { name := some browserName,
               version := (splitOnChar '.' versionString).map atoi,
               completeString := httpBrowserString, httpVersion := httpVersion }
      | _ => none
    | _ => none

/-- Source part_000 lines 333-348.  The nil receiver case is handled by the
callers, which only call this on a parsed record. -/
def shouldAddSecFetch (browser : HttpBrowser) : Bool :=
  match browser.name, browser.version with
  | some name, v :: _ =>
    if name = "chrome" then decide (76 ≤ v)
    else if name = "firefox" then decide (90 ≤ v)
    else if name = "edge" then decide (79 ≤ v)
    else false
  | _, _ => false

/-- Renders fmt.Sprintf %.1f applied to 1.0 - i*0.1 for the reachable
indices 0 ≤ i ≤ 9 (the loop breaks before i reaches 10); at one decimal the
float rounding agrees with the exact value for each of these indices. -/
def qFormat (i : Nat) : String :=
  if i = 0 then "1.0" else "0." ++ toString (10 - i)

/-- The indexed loop body of generateAcceptLanguageHeader, breaking once the
index reaches 10. -/
def acceptLanguageParts : List String → Nat → List String
  | [], _ => []
  | locale :: rest, i =>
    if 10 ≤ i then []
    else (locale ++ ";q=" ++ qFormat i) :: acceptLanguageParts rest (i + 1)

/-- Source part_000 lines 320-330. -/
def generateAcceptLanguageHeader (locales : List String) : String :=
  String.intercalate ", " (acceptLanguageParts locales 0)

/-- Source part_000 lines 309-317. -/
def generateHeadersFromSample (sample : StrMap) : StrMap :=
  sample.filter fun kv =>
    !(strStartsWith kv.1 "*") && kv.2 != missingValueToken

/-- The Accept-Language step of GenerateHeaders (source part_000 lines
213-220), split out so that its insertion behaviour can be stated on its
own. -/
def addAcceptLanguageHeader (locales : List String) (sample headers : StrMap) : StrMap :=
  if locales.isEmpty then headers
  else
    let acceptLanguage := generateAcceptLanguageHeader locales
    if getKV sample "*HTTP_VERSION" = "2" then
      insertKV headers "accept-language" acceptLanguage
    else
      insertKV headers "Accept-Language" acceptLanguage

/-- The Sec-Fetch step of GenerateHeaders (source part_000 lines 222-234). -/
def addSecFetchHeaders (sample headers : StrMap) : StrMap :=
  match prepareHttpBrowserObject (getKV sample "*BROWSER_HTTP") with
  | none => headers
  | some browser =>
    if shouldAddSecFetch browser then
      if browser.isHTTP2 then
        http2SecFetchAttributes.foldl (fun h kv => insertKV h kv.1 kv.2) headers
      else
        http1SecFetchAttributes.foldl (fun h kv => insertKV h kv.1 kv.2) headers
    else headers

/-- Source part_000 lines 69-75.  The headersOrder table is loaded but never
consumed (the reordering TODO), so it is omitted from the model. -/
structure HeaderGenerator where
  headerGeneratorNetwork : BayesianNetwork
  inputGeneratorNetwork : BayesianNetwork
  uniqueBrowsers : List HttpBrowser
  options : HeaderConstraints

/-- Source part_000 lines 266-306.  Version components of a parsed unique
browser record are never empty, so headD 0 models the Version[0] access. -/
def getBrowserHTTPOptions (g : HeaderGenerator) (options : HeaderConstraints) :
    List String :=
  if !options.browserSpecs.isEmpty then
    options.browserSpecs.flatMap fun browser =>
      g.uniqueBrowsers.filterMap fun ub =>
        match ub.name with
        | some n =>
          if n = browser.name then
            if browser.httpVersion = ub.httpVersion || browser.httpVersion = "" then
              if browser.minVersion > 0 && ub.version.headD 0 < browser.minVersion then none
              else if browser.maxVersion > 0 && ub.version.headD 0 > browser.maxVersion then none
              else some ub.completeString
            else none
          else none
        | none => none
  else
    options.browsers.flatMap fun browserName =>
      g.uniqueBrowsers.filterMap fun ub =>
        match ub.name with
        | some n =>
          if n = browserName then
            if options.httpVersion = ub.httpVersion || options.httpVersion = "" then
              some ub.completeString
            else none
          else none
        | none => none

/-- Source part_000 lines 246-263 (map insertions modelled in program
order). -/
def getPossibleAttributeValues (g : HeaderGenerator) (options : HeaderConstraints) :
    List (String × List String) :=
  let values := [("*BROWSER_HTTP", getBrowserHTTPOptions g options)]
  let values := if !options.os.isEmpty then values ++ [("*OPERATING_SYSTEM", options.os)] else values
  let values := if !options.devices.isEmpty then values ++ [("*DEVICE", options.devices)] else values
  values

/-- Source part_000 lines 527-562. -/
def filterBrowserHTTP (value : String)
    (http1Values http2Values : List (String × List String)) : Bool :=
  match splitOnChar '|' value with
  | [browserString, httpVersion] =>
    match splitOnChar '/' browserString with
    | [browserName, _] =>
      if httpVersion = "1" then
        if http1Values.isEmpty then true
        else ((lookupKV http1Values "*BROWSER").getD []).contains browserName
      else
        if http2Values.isEmpty then true
        else ((lookupKV http2Values "*BROWSER").getD []).contains browserName
    | _ => false
  | _ => false

/-- Source part_000 lines 565-588. -/
def filterOtherValues (value : String)
    (http1Values http2Values : List (String × List String)) (key : String) : Bool :=
  if http1Values.isEmpty && http2Values.isEmpty then true
  else
    (match lookupKV http1Values key with
     | some vs => vs.contains value
     | none => false)
    ||
    (match lookupKV http2Values key with
     | some vs => vs.contains value
     | none => false)

/-- Source part_000 lines 484-524.  The Go function returns a nil error
unconditionally, so the error component is dropped. -/
def prepareConstraints (g : HeaderGenerator) (options : HeaderConstraints) :
    List (String × List String) :=
  let possibleAttributeValues := getPossibleAttributeValues g options
  let http1Values := [("*BROWSER", options.browsers),
                      ("*OPERATING_SYSTEM", options.os), ("*DEVICE", options.devices)]
  let http2Values := [("*BROWSER", options.browsers),
                      ("*OPERATING_SYSTEM", options.os), ("*DEVICE", options.devices)]
  possibleAttributeValues.filterMap fun kv =>
    let filteredValues := kv.2.filter fun value =>
      if kv.1 = "*BROWSER_HTTP" then filterBrowserHTTP value http1Values http2Values
      else filterOtherValues value http1Values http2Values kv.1
    if filteredValues.isEmpty then none else some (kv.1, filteredValues)

/-- Title-casing of one hyphen-separated word, as x/text cases.Title with
the undetermined language does on the ASCII header names involved. -/
def pascalizeSegment (s : String) : String :=
  match s.toList with
  | [] => ""
  | c :: rest => String.mk (c.toUpper :: rest.map Char.toLower)

/-- Source utils.go pascalizeKey. -/
def pascalizeKey (key : String) : String :=
  String.intercalate "-" ((splitOnChar '-' key).map pascalizeSegment)

/-- The switch cases of pascalizeHeaders in utils.go. -/
def wellKnownHeaderNames : List String :=
  ["user-agent", "accept-language", "accept-encoding", "accept",
   "content-type", "content-length", "connection", "host", "referer",
   "origin", "cache-control", "pragma", "upgrade-insecure-requests",
   "sec-fetch-mode", "sec-fetch-dest", "sec-fetch-site", "sec-fetch-user"]

/-- Character-list implementation of strings.ToLower on ASCII header
names. -/
def strToLower (s : String) : String :=
  String.mk (s.toList.map Char.toLower)

/-- Source utils.go pascalizeHeaders (map iteration modelled in list
order). -/
def pascalizeHeaders (headers : StrMap) : StrMap :=
  headers.foldl
    (fun h kv =>
      if wellKnownHeaderNames.contains (strToLower kv.1) then insertKV h (pascalizeKey kv.1) kv.2
      else insertKV h kv.1 kv.2)
    []

/-- Outcome of GenerateHeaders: the Go pair (map, error).  ok carries the
map, which Go leaves nil on the non-HTTP/2 success path, hence the inner
Option; out and panic are as in RunRes. -/
inductive GenRes where
  | out
  | panic
  | err (msg : String)
  | ok (headers : Option StrMap) (ctr : Nat)
deriving DecidableEq

/-- The tail of both retry branches of GenerateHeaders: a failed recursive
call propagates its error, a successful one has its headers pascalized
(Go pascalizeHeaders of a nil map yields an empty map). -/
def pascalizeResult (r : GenRes) : GenRes :=
  match r with
  | .ok headers c => .ok (some (pascalizeHeaders (headers.getD []))) c
  | other => other

def noHeadersErrorMessage : String :=
  "no headers based on this input can be generated. Please relax or change some of the requirements you specified"

/-- Source part_000 lines 163-243.  The fuel counts nested retries; a
validation error from the merge is surfaced as err. -/
def generateHeaders (g : HeaderGenerator) (rng : Nat → Frac) :
    Nat → HeaderConstraints → Nat → GenRes
  | 0, _, _ => .out
  | fuel + 1, options, ctr =>
    match mergeOptions g.options options with
    | (_, e :: es) => .err ("validation errors: " ++ String.intercalate "; " (e :: es))
    | (constraints, []) =>
      let inputConstraints := prepareConstraints g constraints
      match g.inputGeneratorNetwork.generateConsistentSampleWhenPossible inputConstraints rng ctr with
      | .out => .out
      | .panic => .panic
      | .done none c =>
        if constraints.httpVersion = "1" then
          pascalizeResult (generateHeaders g rng fuel { constraints with httpVersion := "2" } c)
        else if constraints.strict then .err noHeadersErrorMessage
        else
          pascalizeResult (generateHeaders g rng fuel
            { constraints with locales := [], devices := [] } c)
      | .done (some inputSample) c =>
        match g.headerGeneratorNetwork.generateSample inputSample rng c with
        | none => .panic
        | some (sample, c2) =>
          let headers := generateHeadersFromSample sample
          let headers := addAcceptLanguageHeader constraints.locales sample headers
          let headers := addSecFetchHeaders sample headers
          if constraints.httpVersion = "2" then .ok (some (pascalizeHeaders headers)) c2
          else .ok none c2

/-- Source fingerprint_generator.go lines 142-147. -/
structure Screen where
  minWidth : Option Int := none
  maxWidth : Option Int := none
  minHeight : Option Int := none
  maxHeight : Option Int := none
deriving DecidableEq

/-- Source fingerprint_generator.go lines 166-174. -/
structure FingerprintGenerator where
  network : BayesianNetwork
  headerGenerator : HeaderGenerator
  headerConstraints : HeaderConstraints
  screen : Option Screen
  strict : Bool
  mockWebRTC : Bool
  slim : Bool

/-- Source fingerprint_generator.go line 177: an option is a function that
updates the generator in place. -/
abbrev FingerprintOption := FingerprintGenerator → FingerprintGenerator

/-- Source fingerprint_generator.go lines 204-208 (the pointer argument may
be nil, hence the Option). -/
def withScreen (screen : Option Screen) : FingerprintOption :=
  fun g => { g with screen := screen }

/-- Source fingerprint_generator.go lines 211-215. -/
def withStrict (strict : Bool) : FingerprintOption :=
  fun g => { g with strict := strict }

/-- Source fingerprint_generator.go lines 218-222. -/
def withMockWebRTC (mockWebRTC : Bool) : FingerprintOption :=
  fun g => { g with mockWebRTC := mockWebRTC }

/-- Source fingerprint_generator.go lines 225-229. -/
def withSlim (slim : Bool) : FingerprintOption :=
  fun g => { g with slim := slim }

/-- Source fingerprint_generator.go lines 232-236. -/
def withHeaderConstraints (constraints : HeaderConstraints) : FingerprintOption :=
  fun g => { g with headerConstraints := constraints }

/-- The option-application loop at the top of Generate (source
fingerprint_generator.go lines 240-243): each option is applied to the
generator itself. -/
def applyOptions (g : FingerprintGenerator) (opts : List FingerprintOption) :
    FingerprintGenerator :=
  opts.foldl (fun g opt => opt g) g

/-- Outcome of Generate.  The structured decoding done by
transformFingerprint (JSON field parsers) is an external collaborator per
the specification, so the raw string-valued assignment and the headers are
returned undecoded. -/
inductive FingerprintRes where
  | out
  | panic
  | err (msg : String)
  | ok (raw : StrMap) (headers : StrMap) (ctr : Nat)
deriving DecidableEq

/-- The generation body of Generate after the options have been applied
(source fingerprint_generator.go lines 245-278). -/
def generateBody (g : FingerprintGenerator) (rng : Nat → Frac) (fuel : Nat) (ctr : Nat) :
    FingerprintRes :=
  match generateHeaders g.headerGenerator rng fuel g.headerConstraints ctr with
  | .out => .out
  | .panic => .panic
  | .err m => .err ("failed to generate headers: " ++ m)
  | .ok headersOpt c =>
    let headers := headersOpt.getD []
    let userAgent := getKV headers "User-Agent"
    if userAgent = "" then .err "failed to find User-Agent in generated headers"
    else
      let constraints := [("userAgent", [userAgent])]
      match g.network.generateConsistentSampleWhenPossible constraints rng c with
      | .out => .out
      | .panic => .panic
      | .done (some fingerprint) c2 => .ok fingerprint headers c2
      | .done none c2 =>
        if g.strict then .err "could not generate fingerprint with given constraints"
        else
          match g.network.generateSample [] rng c2 with
          | none => .panic
          | some (fingerprint, c3) => .ok fingerprint headers c3

/-- Source fingerprint_generator.go lines 239-279: Generate first applies
the per-call options to the generator (mutating it) and then runs the body
on the updated generator.  The pair returned here makes the final generator
state explicit. -/
def FingerprintGenerator.generate (g : FingerprintGenerator)
    (opts : List FingerprintOption) (rng : Nat → Frac) (fuel : Nat) (ctr : Nat) :
    FingerprintGenerator × FingerprintRes :=
  let g := applyOptions g opts
  (g, generateBody g rng fuel ctr)

/-- Cumulative sums of the weights in scan order, starting from a given
accumulator; the scan picks the first value whose cumulative sum strictly
exceeds the anchor. -/
def partialSums : List String → (String → Frac) → Frac → List Frac
  | [], _, _ => []
  | v :: rest, probabilities, cumulative =>
    Frac.add cumulative (probabilities v) ::
      partialSums rest probabilities (Frac.add cumulative (probabilities v))

theorem scanForValue_mem (probabilities : String → Frac) (anchor : Frac) :
    ∀ (l : List String) (cumulative : Frac) (v : String),
      scanForValue l probabilities anchor cumulative = some v → v ∈ l := by
  intro l
  induction l with
  | nil => intro cumulative v h; simp [scanForValue] at h
  | cons x rest ih =>
    intro cumulative v h
    simp only [scanForValue] at h
    by_cases hc : Frac.blt anchor (Frac.add cumulative (probabilities x)) = true
    · simp [hc] at h
      simp [h]
    · simp [hc] at h
      exact List.mem_cons_of_mem x (ih _ v h)

theorem sampleRandomValueFromPossibilities_mem (possibleValues : List String)
    (probabilities : String → Frac) (anchor : Frac) (v : String)
    (h : sampleRandomValueFromPossibilities possibleValues probabilities anchor = some v) :
    v ∈ possibleValues := by
  unfold sampleRandomValueFromPossibilities at h
  cases hs : scanForValue possibleValues probabilities anchor (Frac.ofInt 0) with
  | some w =>
    rw [hs] at h
    cases h
    exact scanForValue_mem probabilities anchor possibleValues (Frac.ofInt 0) v hs
  | none =>
    rw [hs] at h
    exact List.mem_of_mem_head? h

theorem sampleRandomValueFromPossibilities_isSome (possibleValues : List String)
    (probabilities : String → Frac) (anchor : Frac) (h : possibleValues ≠ []) :
    (sampleRandomValueFromPossibilities possibleValues probabilities anchor).isSome := by
  unfold sampleRandomValueFromPossibilities
  cases hs : scanForValue possibleValues probabilities anchor (Frac.ofInt 0) with
  | some w => simp
  | none =>
    cases possibleValues with
    | nil => exact absurd rfl h
    | cons x rest => simp [List.head?]

theorem scanForValue_none_of_partialSums_le (probabilities : String → Frac) (anchor : Frac) :
    ∀ (l : List String) (cumulative : Frac),
      (∀ c ∈ partialSums l probabilities cumulative, Frac.blt anchor c = false) →
      scanForValue l probabilities anchor cumulative = none := by
  intro l
  induction l with
  | nil => intro cumulative _; rfl
  | cons x rest ih =>
    intro cumulative h
    have hx : Frac.blt anchor (Frac.add cumulative (probabilities x)) = false :=
      h _ (by simp [partialSums])
    have hrest : ∀ c ∈ partialSums rest probabilities (Frac.add cumulative (probabilities x)),
        Frac.blt anchor c = false := by
      intro c hc
      exact h c (by simp [partialSums, hc])
    simp only [scanForValue]
    rw [if_neg (by rw [hx]; exact Bool.false_ne_true)]
    exact ih _ hrest

/-- C4 (amended): the weighted sampler is total on every nonempty value
list and returns one of its elements; when no cumulative weight exceeds the
draw it falls back to the first element; and unconditional node sampling
returns a value whenever the leaf distribution obtained from the CPT is
nonempty (it may be a partial distribution).  On an empty leaf distribution
the Go code panics, see the counterexample theorem. -/
theorem weighted_sampler_total_on_nonempty :
    (∀ (possibleValues : List String) (probabilities : String → Frac) (anchor : Frac),
       possibleValues ≠ [] →
       ∃ v, sampleRandomValueFromPossibilities possibleValues probabilities anchor = some v ∧
         v ∈ possibleValues)
    ∧ (∀ (possibleValues : List String) (probabilities : String → Frac) (anchor : Frac),
       (∀ c ∈ partialSums possibleValues probabilities (Frac.ofInt 0), Frac.blt anchor c = false) →
       sampleRandomValueFromPossibilities possibleValues probabilities anchor =
         possibleValues.head?)
    ∧ (∀ (n : Node) (parentValues : StrMap) (anchor : Frac)
         (probabilities : List (String × Frac)),
       getProbabilitiesGivenKnownValues n parentValues = some probabilities →
       probabilities ≠ [] →
       (Node.sample n parentValues anchor).isSome) := by
  refine ⟨?_, ?_, ?_⟩
  · intro possibleValues probabilities anchor h
    have hsome := sampleRandomValueFromPossibilities_isSome possibleValues probabilities anchor h
    obtain ⟨v, hv⟩ := Option.isSome_iff_exists.mp hsome
    exact ⟨v, hv, sampleRandomValueFromPossibilities_mem possibleValues probabilities anchor v hv⟩
  · intro possibleValues probabilities anchor h
    unfold sampleRandomValueFromPossibilities
    rw [scanForValue_none_of_partialSums_le probabilities anchor possibleValues (Frac.ofInt 0) h]
  · intro n parentValues anchor probabilities hp hne
    unfold Node.sample
    rw [hp]
    apply sampleRandomValueFromPossibilities_isSome
    simpa using hne

/-- C4 witness: the theorem applied at concrete inputs. -/
theorem weighted_sampler_total_on_nonempty_witness :
    (∃ v, sampleRandomValueFromPossibilities ["a", "b"] (fun _ => Frac.ofInt 1) (Frac.ofInt 0) =
        some v ∧ v ∈ ["a", "b"])
    ∧ sampleRandomValueFromPossibilities ["a", "b"] (fun _ => Frac.ofInt 0) (Frac.ofInt 5) =
        ["a", "b"].head?
    ∧ (Node.sample
         { name := "A", parentNames := [], possibleValues := ["a"],
           conditionalProbs := [("a", JsonVal.num (Frac.ofInt 1))] } [] (Frac.ofInt 0)).isSome :=
  ⟨weighted_sampler_total_on_nonempty.1 ["a", "b"] (fun _ => Frac.ofInt 1) (Frac.ofInt 0)
     (by decide),
   weighted_sampler_total_on_nonempty.2.1 ["a", "b"] (fun _ => Frac.ofInt 0) (Frac.ofInt 5) (by
     intro c hc
     simp [partialSums] at hc
     rcases hc with hc | hc <;> rw [hc] <;> decide),
   weighted_sampler_total_on_nonempty.2.2 _ [] (Frac.ofInt 0) [("a", Frac.ofInt 1)]
     (by rfl) (by simp)⟩

/-- C4 counterexample: on a node whose CPT leaf distribution is empty, the
unconditional sampler evaluates possibleValues[0] on an empty slice, a Go
index-out-of-range panic (modelled by none) - the operation is not total on
an empty leaf distribution, contrary to the claim. -/
theorem node_sample_empty_distribution_panics :
    Node.sample
      { name := "A", parentNames := [], possibleValues := ["a"],
        conditionalProbs := [] } [] (Frac.ofInt 0) = none := by rfl

/-- Decimal rendering of a number of tenths with one digit after the point;
t tenths stands for the q value t/10. -/
def oneDecimalOfTenths (t : Nat) : String :=
  toString (t / 10) ++ "." ++ toString (t % 10)

theorem qFormat_eq_oneDecimalOfTenths (j : Nat) (hj : j ≤ 9) :
    qFormat j = oneDecimalOfTenths (10 - j) := by
  interval_cases j <;> rfl

theorem acceptLanguageParts_length :
    ∀ (locales : List String) (i : Nat),
      (acceptLanguageParts locales i).length = min locales.length (10 - i) := by
  intro locales
  induction locales with
  | nil => intro i; simp [acceptLanguageParts]
  | cons locale rest ih =>
    intro i
    by_cases hi : 10 ≤ i
    · simp only [acceptLanguageParts, if_pos hi, List.length_nil]
      omega
    · simp only [acceptLanguageParts, if_neg hi, List.length_cons, ih (i + 1)]
      omega

theorem acceptLanguageParts_getD :
    ∀ (locales : List String) (i j : Nat),
      j < (acceptLanguageParts locales i).length →
      (acceptLanguageParts locales i).getD j "" =
        locales.getD j "" ++ ";q=" ++ qFormat (i + j) := by
  intro locales
  induction locales with
  | nil => intro i j h; simp [acceptLanguageParts] at h
  | cons locale rest ih =>
    intro i j h
    by_cases hi : 10 ≤ i
    · simp [acceptLanguageParts, hi] at h
    · simp only [acceptLanguageParts, if_neg hi] at h ⊢
      cases j with
      | zero => simp
      | succ j =>
        simp only [List.getD_cons_succ]
        have := ih (i + 1) j (by simpa using h)
        rw [this]
        congr 2
        omega

/-- C5: for a nonempty merged locale list the Accept-Language value is the
comma-space join of the parts, the parts are capped at 10 entries, the j-th
part is the j-th locale suffixed by a q value of (10-j)/10 tenths (so q
starts at 1.0 and decreases by 0.1 per position), and the value is inserted
under the lowercase key accept-language exactly when the sampled
*HTTP_VERSION is "2", else under Accept-Language. -/
theorem acceptLanguage_header_properties (locales : List String) (h : locales ≠ []) :
    generateAcceptLanguageHeader locales =
      String.intercalate ", " (acceptLanguageParts locales 0)
    ∧ (acceptLanguageParts locales 0).length = min locales.length 10
    ∧ (∀ j, j < (acceptLanguageParts locales 0).length →
        (acceptLanguageParts locales 0).getD j "" =
          locales.getD j "" ++ ";q=" ++ oneDecimalOfTenths (10 - j))
    ∧ (∀ sample headers : StrMap,
        lookupKV (addAcceptLanguageHeader locales sample headers)
          (if getKV sample "*HTTP_VERSION" = "2" then "accept-language"
           else "Accept-Language") =
        some (generateAcceptLanguageHeader locales)) := by
  refine ⟨rfl, by simpa using acceptLanguageParts_length locales 0, ?_, ?_⟩
  · intro j hj
    have hlen := acceptLanguageParts_length locales 0
    have hj9 : j ≤ 9 := by omega
    rw [acceptLanguageParts_getD locales 0 j hj, Nat.zero_add,
      qFormat_eq_oneDecimalOfTenths j hj9]
  · intro sample headers
    unfold addAcceptLanguageHeader
    rw [if_neg (by simpa using h)]
    by_cases hv : getKV sample "*HTTP_VERSION" = "2"
    · rw [if_pos hv, if_pos hv, lookupKV_insert_self]
    · rw [if_neg hv, if_neg hv, lookupKV_insert_self]

/-- C5 witness: the theorem applied at a concrete locale list, sample and
header map. -/
theorem acceptLanguage_header_properties_witness :
    lookupKV
      (addAcceptLanguageHeader ["en-US", "fr-FR"] [("*HTTP_VERSION", "2")] [])
      "accept-language" = some (generateAcceptLanguageHeader ["en-US", "fr-FR"])
    ∧ (acceptLanguageParts ["en-US", "fr-FR"] 0).getD 1 "" =
        "fr-FR" ++ ";q=" ++ oneDecimalOfTenths 9 := by
  constructor
  · have h := (acceptLanguage_header_properties ["en-US", "fr-FR"] (by decide)).2.2.2
      [("*HTTP_VERSION", "2")] []
    rw [show (if getKV [("*HTTP_VERSION", "2")] "*HTTP_VERSION" = "2"
          then "accept-language" else "Accept-Language") = "accept-language"
        from by decide] at h
    exact h
  · have h := (acceptLanguage_header_properties ["en-US", "fr-FR"] (by decide)).2.2.1
      1 (by decide)
    simpa using h

theorem filterValidValues_fst (values supported : List String)
    (h : ¬ values.isEmpty = true) :
    (filterValidValues values supported).1 = values.filter fun v => supported.contains v := by
  unfold filterValidValues
  rw [if_neg h]
  by_cases h2 : (values.filter fun v => !(supported.contains v)).isEmpty = true
  · simp only [h2, if_pos]
  · simp only [h2, if_neg, Bool.false_eq_true, not_false_iff]

theorem filterValidValues_snd_some (values supported : List String)
    (h : ¬ values.isEmpty = true)
    (h2 : (values.filter fun v => supported.contains v).isEmpty = true) :
    (filterValidValues values supported).2.isSome := by
  unfold filterValidValues
  rw [if_neg h]
  have hinv : (values.filter fun v => !(supported.contains v)).isEmpty = false := by
    cases values with
    | nil => simp at h
    | cons x rest =>
      by_cases hx : supported.contains x = true
      · exfalso
        rw [List.isEmpty_iff] at h2
        have hmem : x ∈ List.filter (fun v => supported.contains v) (x :: rest) :=
          List.mem_filter.mpr ⟨List.mem_cons_self x rest, hx⟩
        rw [h2] at hmem
        simp at hmem
      · have hxf : (!(supported.contains x)) = true := by
          cases hcx : supported.contains x
          · rfl
          · exact absurd hcx hx
        rw [List.filter_cons, if_pos hxf]
        rfl
  rw [if_neg (by rw [hinv]; exact Bool.false_ne_true)]
  rfl

theorem validateAndMerge_fst (current userValues supported : List String) :
    (validateAndMerge current userValues supported).1 =
      if userValues.isEmpty || (userValues.filter fun v => supported.contains v).isEmpty
      then current
      else userValues.filter fun v => supported.contains v := by
  unfold validateAndMerge
  by_cases h : userValues.isEmpty = true
  · simp [h]
  · rw [if_neg h]
    simp only [filterValidValues_fst userValues supported h]
    by_cases h2 : (userValues.filter fun v => supported.contains v).isEmpty = true
    · simp [h, h2]
    · simp [h, h2]

theorem validateAndMerge_snd_some (current userValues supported : List String)
    (h : ¬ userValues.isEmpty = true)
    (h2 : (userValues.filter fun v => supported.contains v).isEmpty = true) :
    (validateAndMerge current userValues supported).2.isSome := by
  unfold validateAndMerge
  rw [if_neg h]
  exact filterValidValues_snd_some userValues supported h h2

/-- C8 (amended): for each of browsers, os and devices, user values are
validated against the supported set and the supported survivors replace the
default whenever any survive; when all user-supplied browser values are
unsupported the browsers list keeps the default (it does not become empty)
and the accumulated validation error is returned alongside the merged
result. -/
theorem mergeOptions_amended (defaults user : HeaderConstraints) :
    ((mergeOptions defaults user).1.browsers =
      if user.browsers.isEmpty || (user.browsers.filter fun v => SupportedBrowsers.contains v).isEmpty
      then defaults.browsers
      else user.browsers.filter fun v => SupportedBrowsers.contains v)
    ∧ ((mergeOptions defaults user).1.os =
      if user.os.isEmpty || (user.os.filter fun v => SupportedOS.contains v).isEmpty
      then defaults.os
      else user.os.filter fun v => SupportedOS.contains v)
    ∧ ((mergeOptions defaults user).1.devices =
      if user.devices.isEmpty || (user.devices.filter fun v => SupportedDevices.contains v).isEmpty
      then defaults.devices
      else user.devices.filter fun v => SupportedDevices.contains v)
    ∧ (¬ user.browsers.isEmpty = true →
       (user.browsers.filter fun v => SupportedBrowsers.contains v).isEmpty = true →
       (mergeOptions defaults user).2 ≠ []) := by
  refine ⟨?_, ?_, ?_, ?_⟩
  · show (validateAndMerge defaults.browsers user.browsers SupportedBrowsers).1 = _
    exact validateAndMerge_fst _ _ _
  · show (validateAndMerge defaults.os user.os SupportedOS).1 = _
    exact validateAndMerge_fst _ _ _
  · show (validateAndMerge defaults.devices user.devices SupportedDevices).1 = _
    exact validateAndMerge_fst _ _ _
  · intro h h2
    have hb := validateAndMerge_snd_some defaults.browsers user.browsers SupportedBrowsers h h2
    obtain ⟨e, he⟩ := Option.isSome_iff_exists.mp hb
    simp only [mergeOptions, he]
    simp

/-- C8 witness: the amended theorem applied at concrete option records. -/
theorem mergeOptions_amended_witness :
    (mergeOptions defaultHeaderOptions { browsers := ["opera", "chrome"] }).1.browsers = ["chrome"]
    ∧ (mergeOptions defaultHeaderOptions { browsers := ["netscape"] }).2 ≠ [] := by
  constructor
  · rw [(mergeOptions_amended defaultHeaderOptions { browsers := ["opera", "chrome"] }).1]
    decide
  · exact (mergeOptions_amended defaultHeaderOptions { browsers := ["netscape"] }).2.2.2
      (by decide) (by decide)

/-- C8 counterexample: with every user-supplied browser value unsupported,
the merged browsers list is the untouched default, not the empty list the
claim describes; the validation error is still returned alongside. -/
theorem mergeOptions_all_invalid_keeps_default :
    (mergeOptions defaultHeaderOptions { browsers := ["netscape"] }).1.browsers =
      ["chrome", "firefox", "safari", "edge"]
    ∧ (mergeOptions defaultHeaderOptions { browsers := ["netscape"] }).1.browsers ≠ []
    ∧ (mergeOptions defaultHeaderOptions { browsers := ["netscape"] }).2 ≠ [] := by
  refine ⟨by decide, by decide, by decide⟩

theorem prepareHttpBrowserObject_none_iff (s : String) (hs : s ≠ missingValueToken) :
    prepareHttpBrowserObject s = none ↔
      (splitOnChar '|' s).length ≠ 2 ∨
      (splitOnChar '/' ((splitOnChar '|' s).headD "")).length ≠ 2 := by
  unfold prepareHttpBrowserObject
  rw [if_neg hs]
  rcases h1 : splitOnChar '|' s with _ | ⟨a, _ | ⟨b, _ | ⟨c, rest⟩⟩⟩
  · simp
  · simp
  · rcases h2 : splitOnChar '/' a with _ | ⟨x, _ | ⟨y, _ | ⟨z, rest2⟩⟩⟩ <;> simp [h2]
  · simp

/-- C10 (amended): a sampled *BROWSER_HTTP string other than the missing
token parses to nil exactly when its pipe split is not two parts or the part
before the pipe does not split into exactly two slash parts (a slash in the
HTTP-version part is accepted, see the counterexample); the missing token
yields a record with a nil name and an empty version list; and a nil record
or the missing token leaves the header map unchanged by the Sec-Fetch step,
with no error. -/
theorem prepareHttpBrowserObject_behaviour :
    (∀ s : String, s ≠ missingValueToken →
      (prepareHttpBrowserObject s = none ↔
        (splitOnChar '|' s).length ≠ 2 ∨
        (splitOnChar '/' ((splitOnChar '|' s).headD "")).length ≠ 2))
    ∧ prepareHttpBrowserObject missingValueToken =
        some { name := none, version := [], completeString := missingValueToken,
               httpVersion := "" }
    ∧ (∀ sample headers : StrMap,
        prepareHttpBrowserObject (getKV sample "*BROWSER_HTTP") = none →
        addSecFetchHeaders sample headers = headers)
    ∧ (∀ sample headers : StrMap,
        getKV sample "*BROWSER_HTTP" = missingValueToken →
        addSecFetchHeaders sample headers = headers) := by
  refine ⟨prepareHttpBrowserObject_none_iff, by rfl, ?_, ?_⟩
  · intro sample headers h
    unfold addSecFetchHeaders
    rw [h]
  · intro sample headers h
    unfold addSecFetchHeaders
    rw [h]
    rfl

/-- C10 witness: the theorem applied at a concrete malformed string, a
concrete sample carrying it, and a concrete sample carrying the missing
token. -/
theorem prepareHttpBrowserObject_behaviour_witness :
    (prepareHttpBrowserObject "weird" = none ↔
      (splitOnChar '|' "weird").length ≠ 2 ∨
      (splitOnChar '/' ((splitOnChar '|' "weird").headD "")).length ≠ 2)
    ∧ addSecFetchHeaders [("*BROWSER_HTTP", "weird")] [("User-Agent", "x")] =
        [("User-Agent", "x")]
    ∧ addSecFetchHeaders [("*BROWSER_HTTP", "*MISSING_VALUE*")] [("User-Agent", "x")] =
        [("User-Agent", "x")] :=
  ⟨prepareHttpBrowserObject_behaviour.1 "weird" (by decide),
   prepareHttpBrowserObject_behaviour.2.2.1 [("*BROWSER_HTTP", "weird")]
     [("User-Agent", "x")] (by decide),
   prepareHttpBrowserObject_behaviour.2.2.2 [("*BROWSER_HTTP", "*MISSING_VALUE*")]
     [("User-Agent", "x")] (by decide)⟩

/-- C10 counterexample: the string chrome/100|2/x contains exactly one pipe
and two slashes, so by the claim it is not of the stated form and should
parse to nil, yet the code returns a record (the second slash sits after the
pipe and is never examined). -/
theorem prepareHttpBrowserObject_extra_slash :
    (("chrome/100|2/x".toList.filter fun c => c = '|').length = 1)
    ∧ (("chrome/100|2/x".toList.filter fun c => c = '/').length = 2)
    ∧ prepareHttpBrowserObject "chrome/100|2/x" =
        some { name := some "chrome", version := [100],
               completeString := "chrome/100|2/x", httpVersion := "2/x" } := by
  refine ⟨by decide, by decide, by decide⟩

/-- The fixed random stream used by concrete evaluations: every draw is 0,
so the weighted sampler deterministically picks the first value whose weight
is positive. -/
def rngZero : Nat → Frac := fun _ => Frac.ofInt 0

def emptyNetwork : BayesianNetwork := { nodesInSamplingOrder := [] }

def trivialHeaderGenerator : HeaderGenerator :=
  { headerGeneratorNetwork := emptyNetwork, inputGeneratorNetwork := emptyNetwork,
    uniqueBrowsers := [], options := defaultHeaderOptions }

def gFP0 : FingerprintGenerator :=
  { network := emptyNetwork, headerGenerator := trivialHeaderGenerator,
    headerConstraints := {}, screen := none, strict := false,
    mockWebRTC := false, slim := false }

/-- C9 (amended): Generate applies the per-call options to the generator
itself, so the generator state after the call is exactly applyOptions of the
state before; with no per-call options every field is unchanged, and each
builder option changes exactly its own field.  GenerateHeaders and the body
of Generate never assign to generator fields (they are pure state readers in
this embedding, mirroring the absence of field assignments in the source);
only the random stream position advances. -/
theorem generate_option_application (g : FingerprintGenerator)
    (opts : List FingerprintOption) (rng : Nat → Frac) (fuel ctr : Nat) :
    (FingerprintGenerator.generate g opts rng fuel ctr).1 = applyOptions g opts
    ∧ (FingerprintGenerator.generate g [] rng fuel ctr).1 = g
    ∧ (∀ b, applyOptions g [withSlim b] = { g with slim := b })
    ∧ (∀ b, applyOptions g [withMockWebRTC b] = { g with mockWebRTC := b })
    ∧ (∀ b, applyOptions g [withStrict b] = { g with strict := b })
    ∧ (∀ s, applyOptions g [withScreen s] = { g with screen := s })
    ∧ (∀ c, applyOptions g [withHeaderConstraints c] = { g with headerConstraints := c }) :=
  ⟨rfl, rfl, fun _ => rfl, fun _ => rfl, fun _ => rfl, fun _ => rfl, fun _ => rfl⟩

/-- C9 counterexample: a call to Generate passing a per-call option changes
a field of the generator - the slim flag flips from false to true and stays
with the generator, contradicting the claim that all fields are identical
before and after the call. -/
theorem generate_mutates_generator :
    gFP0.slim = false
    ∧ ((FingerprintGenerator.generate gFP0 [withSlim true] rngZero 1 0).1).slim = true :=
  ⟨rfl, rfl⟩

theorem lookupKV_foldl_insert_not_mem :
    ∀ (attrs : List (String × String)) (headers : StrMap) (k : String),
      lookupKV attrs k = none →
      lookupKV (attrs.foldl (fun h kv => insertKV h kv.1 kv.2) headers) k =
        lookupKV headers k := by
  intro attrs
  induction attrs with
  | nil => intro headers k _; rfl
  | cons kv rest ih =>
    intro headers k hk
    obtain ⟨k1, v1⟩ := kv
    simp only [lookupKV] at hk
    by_cases h1 : k1 = k
    · rw [if_pos h1] at hk; cases hk
    · rw [if_neg h1] at hk
      simp only [List.foldl_cons]
      rw [ih (insertKV headers k1 v1) k hk,
        lookupKV_insert_ne headers k1 k v1 (fun he => h1 he.symm)]

theorem lookupKV_foldl_insert_isSome :
    ∀ (attrs : List (String × String)) (headers : StrMap) (k : String),
      (lookupKV attrs k).isSome →
      (lookupKV (attrs.foldl (fun h kv => insertKV h kv.1 kv.2) headers) k).isSome := by
  intro attrs
  induction attrs with
  | nil => intro headers k hk; simp [lookupKV] at hk
  | cons kv rest ih =>
    intro headers k hk
    obtain ⟨k1, v1⟩ := kv
    simp only [List.foldl_cons]
    by_cases hrest : (lookupKV rest k).isSome
    · exact ih _ k hrest
    · have hnone : lookupKV rest k = none := by
        cases hr : lookupKV rest k
        · rfl
        · rw [hr] at hrest; simp at hrest
      rw [lookupKV_foldl_insert_not_mem rest _ k hnone]
      by_cases h1 : k1 = k
      · subst h1
        rw [lookupKV_insert_self]
        rfl
      · exfalso
        simp only [lookupKV, if_neg h1] at hk
        rw [hnone] at hk
        simp at hk

/-- The four headers of an attribute set are all present in a map. -/
def secFetchPresent (attrs : List (String × String)) (m : StrMap) : Prop :=
  ∀ kv ∈ attrs, (lookupKV m kv.1).isSome

theorem shouldAddSecFetch_iff (b : HttpBrowser) :
    shouldAddSecFetch b = true ↔
      ((b.name = some "chrome" ∧ ∃ v vs, b.version = v :: vs ∧ 76 ≤ v)
       ∨ (b.name = some "firefox" ∧ ∃ v vs, b.version = v :: vs ∧ 90 ≤ v)
       ∨ (b.name = some "edge" ∧ ∃ v vs, b.version = v :: vs ∧ 79 ≤ v)) := by
  obtain ⟨nameOpt, version, cs, hv⟩ := b
  cases nameOpt with
  | none => simp [shouldAddSecFetch]
  | some name =>
    cases version with
    | nil => simp [shouldAddSecFetch]
    | cons v vs =>
      by_cases h1 : name = "chrome"
      · subst h1; simp [shouldAddSecFetch]
      · by_cases h2 : name = "firefox"
        · subst h2; simp [shouldAddSecFetch, h1]
        · by_cases h3 : name = "edge"
          · subst h3; simp [shouldAddSecFetch, h1, h2]
          · simp [shouldAddSecFetch, h1, h2, h3]

/-- C6: the four Sec-Fetch headers appear in the header map produced by the
Sec-Fetch step exactly when the sampled *BROWSER_HTTP string parses to a
record naming chrome with major version at least 76, firefox with major at
least 90, or edge with major at least 79; in particular safari records and
strings that do not parse (nil record) add nothing.  The hypothesis states
that the sample-derived headers carry none of the Sec-Fetch keys already,
which holds for the header network data (the generator injects them
precisely because the network does not model them). -/
theorem secFetch_headers_iff (sample headers : StrMap)
    (hclean : ∀ kv ∈ http1SecFetchAttributes ++ http2SecFetchAttributes,
      lookupKV headers kv.1 = none) :
    (secFetchPresent http1SecFetchAttributes (addSecFetchHeaders sample headers)
     ∨ secFetchPresent http2SecFetchAttributes (addSecFetchHeaders sample headers))
    ↔ ∃ b, prepareHttpBrowserObject (getKV sample "*BROWSER_HTTP") = some b ∧
        ((b.name = some "chrome" ∧ ∃ v vs, b.version = v :: vs ∧ 76 ≤ v)
         ∨ (b.name = some "firefox" ∧ ∃ v vs, b.version = v :: vs ∧ 90 ≤ v)
         ∨ (b.name = some "edge" ∧ ∃ v vs, b.version = v :: vs ∧ 79 ≤ v)) := by
  have habsent1 : ¬ secFetchPresent http1SecFetchAttributes headers := by
    intro hpres
    have h0 := hpres ("Sec-Fetch-Mode", "same-site") (by decide)
    rw [hclean ("Sec-Fetch-Mode", "same-site") (by decide)] at h0
    simp at h0
  have habsent2 : ¬ secFetchPresent http2SecFetchAttributes headers := by
    intro hpres
    have h0 := hpres ("sec-fetch-mode", "same-site") (by decide)
    rw [hclean ("sec-fetch-mode", "same-site") (by decide)] at h0
    simp at h0
  cases hp : prepareHttpBrowserObject (getKV sample "*BROWSER_HTTP") with
  | none =>
    simp only [addSecFetchHeaders, hp]
    apply iff_of_false
    · intro h
      cases h with
      | inl h => exact habsent1 h
      | inr h => exact habsent2 h
    · rintro ⟨b, hb, _⟩
      exact Option.noConfusion hb
  | some b =>
    simp only [addSecFetchHeaders, hp]
    by_cases hg : shouldAddSecFetch b = true
    · rw [if_pos hg]
      apply iff_of_true
      · by_cases h2 : b.isHTTP2 = true
        · rw [if_pos h2]
          right
          intro kv hkv
          apply lookupKV_foldl_insert_isSome
          fin_cases hkv <;> decide
        · rw [if_neg h2]
          left
          intro kv hkv
          apply lookupKV_foldl_insert_isSome
          fin_cases hkv <;> decide
      · exact ⟨b, rfl, (shouldAddSecFetch_iff b).mp hg⟩
    · rw [if_neg hg]
      apply iff_of_false
      · intro h
        cases h with
        | inl h => exact habsent1 h
        | inr h => exact habsent2 h
      · rintro ⟨b2, hb2, hgate⟩
        injection hb2 with hb2e
        subst hb2e
        exact hg ((shouldAddSecFetch_iff b).mpr hgate)

/-- C6 witness: the theorem applied at a concrete sample whose browser
string is chrome major 100 over HTTP/2, with an empty prior header map. -/
theorem secFetch_headers_iff_witness :
    (secFetchPresent http1SecFetchAttributes
        (addSecFetchHeaders [("*BROWSER_HTTP", "chrome/100.0.0.0|2")] [])
     ∨ secFetchPresent http2SecFetchAttributes
        (addSecFetchHeaders [("*BROWSER_HTTP", "chrome/100.0.0.0|2")] []))
    ↔ ∃ b, prepareHttpBrowserObject
          (getKV [("*BROWSER_HTTP", "chrome/100.0.0.0|2")] "*BROWSER_HTTP") = some b ∧
        ((b.name = some "chrome" ∧ ∃ v vs, b.version = v :: vs ∧ 76 ≤ v)
         ∨ (b.name = some "firefox" ∧ ∃ v vs, b.version = v :: vs ∧ 90 ≤ v)
         ∨ (b.name = some "edge" ∧ ∃ v vs, b.version = v :: vs ∧ 79 ≤ v)) :=
  secFetch_headers_iff [("*BROWSER_HTTP", "chrome/100.0.0.0|2")] [] (by decide)

theorem sampleAccordingToRestrictions_mem (n : Node) (pv : StrMap)
    (poss banned : List String) (anchor : Frac) (v : String)
    (h : sampleAccordingToRestrictions n pv poss banned anchor = some (some v)) :
    v ∈ poss ∧ banned.contains v = false := by
  unfold sampleAccordingToRestrictions at h
  cases hp : getProbabilitiesGivenKnownValues n pv with
  | none => rw [hp] at h; cases h
  | some probabilities =>
    rw [hp] at h
    simp only at h
    by_cases he : (poss.filter fun value =>
        !(banned.contains value) && (lookupKV probabilities value).isSome).isEmpty = true
    · rw [if_pos he] at h
      simp at h
    · rw [if_neg he] at h
      cases hs : sampleRandomValueFromPossibilities
          (poss.filter fun value => !(banned.contains value) && (lookupKV probabilities value).isSome)
          (getProb ((poss.filter fun value =>
            !(banned.contains value) && (lookupKV probabilities value).isSome).map
              fun value => (value, getProb probabilities value)))
          anchor with
      | none => rw [hs] at h; simp at h
      | some w =>
        rw [hs] at h
        have hwv : w = v := by
          injection h with h1
          injection h1
        subst hwv
        have hmem := sampleRandomValueFromPossibilities_mem _ _ _ _ hs
        have hmf := List.mem_filter.mp hmem
        refine ⟨hmf.1, ?_⟩
        have hand := hmf.2
        rw [Bool.and_eq_true] at hand
        have hnot := hand.1
        cases hc : banned.contains w
        · rfl
        · rw [hc] at hnot; simp at hnot

/-- Number of candidate values at a node not yet banned; the loop at one
depth runs at most this many more iterations. -/
def remainingCount (possibilities banned : List String) : Nat :=
  (possibilities.filter fun v => !(banned.contains v)).length

theorem filter_length_mono (p q : String → Bool) (h : ∀ x, p x = true → q x = true) :
    ∀ l : List String, (l.filter p).length ≤ (l.filter q).length := by
  intro l
  induction l with
  | nil => simp
  | cons x rest ih =>
    cases hp : p x
    · cases hq : q x
      · simpa [List.filter_cons, hp, hq] using ih
      · simp only [List.filter_cons, hp, hq]
        simp only [Bool.false_eq_true, if_false, if_true, List.length_cons]
        exact Nat.le_succ_of_le ih
    · have hq := h x hp
      simp only [List.filter_cons, hp, hq]
      simpa using ih

theorem remainingCount_pos (poss banned : List String) (v : String)
    (hv : v ∈ poss) (hb : banned.contains v = false) :
    1 ≤ remainingCount poss banned := by
  have : v ∈ poss.filter fun x => !(banned.contains x) :=
    List.mem_filter.mpr ⟨hv, by rw [hb]; rfl⟩
  exact List.length_pos_of_mem this

theorem remainingCount_append_lt (poss banned : List String) (v : String)
    (hv : v ∈ poss) (hb : banned.contains v = false) :
    remainingCount poss (banned ++ [v]) < remainingCount poss banned := by
  unfold remainingCount
  induction poss with
  | nil => cases hv
  | cons x rest ih =>
    have hcx : ((banned ++ [v]).contains x) = (banned.contains x || x == v) := by
      rw [Bool.eq_iff_iff]
      simp
    by_cases hxv : x = v
    · have h1 : (!(banned.contains x)) = true := by rw [hxv, hb]; rfl
      have h2c : ((banned ++ [v]).contains x) = true := by
        rw [Bool.eq_iff_iff]
        simp [hxv]
      rw [List.filter_cons, List.filter_cons, if_pos h1, if_neg (by rw [h2c]; decide)]
      have hmono : (rest.filter fun y => !((banned ++ [v]).contains y)).length ≤
          (rest.filter fun y => !(banned.contains y)).length := by
        apply filter_length_mono
        intro y hy
        rw [Bool.not_eq_true'] at hy ⊢
        cases hc : banned.contains y
        · rfl
        · exfalso
          have hcy : ((banned ++ [v]).contains y) = true := by
            rw [Bool.eq_iff_iff]
            simp
            left
            simpa using hc
          rw [hcy] at hy
          cases hy
      simp only [List.length_cons]
      exact Nat.lt_succ_of_le hmono
    · have hv' : v ∈ rest := by
        cases hv with
        | head => exact absurd rfl hxv
        | tail _ hm => exact hm
      have heq : ((banned ++ [v]).contains x) = (banned.contains x) := by
        rw [Bool.eq_iff_iff]
        simp [hxv]
      rw [List.filter_cons, List.filter_cons, heq]
      cases hc : banned.contains x
      · simp only [hc, Bool.not_false, if_true, List.length_cons]
        exact Nat.succ_lt_succ (ih hv')
      · simp only [hc, Bool.not_true, Bool.false_eq_true, if_false]
        exact ih hv'

/-- Fuel sufficient for one call frame at the head node given the values
already banned there. -/
def loopBound (vp : List (String × List String)) : List Node → List String → Nat
  | [], _ => 1
  | n :: rest, banned =>
    1 + remainingCount ((lookupKV vp n.name).getD n.possibleValues) banned *
        (fuelBound vp rest + 1)

theorem one_le_loopBound (vp : List (String × List String)) (nodes : List Node)
    (banned : List String) : 1 ≤ loopBound vp nodes banned := by
  cases nodes with
  | nil => exact Nat.le_refl 1
  | cons n rest => exact Nat.le_add_right 1 _

theorem loopBound_le_fuelBound (vp : List (String × List String)) :
    ∀ (nodes : List Node) (banned : List String),
      loopBound vp nodes banned ≤ fuelBound vp nodes := by
  intro nodes banned
  cases nodes with
  | nil => exact Nat.le_refl 1
  | cons n rest =>
    have h1 : remainingCount ((lookupKV vp n.name).getD n.possibleValues) banned ≤
        ((lookupKV vp n.name).getD n.possibleValues).length :=
      List.length_filter_le _ _
    exact Nat.add_le_add_left (Nat.mul_le_mul_right _ h1) 1

theorem recGen_ne_out (rng : Nat → Frac) (vp : List (String × List String)) :
    ∀ (fuel : Nat) (nodes : List Node) (sofar : StrMap) (banned : List String) (ctr : Nat),
      loopBound vp nodes banned ≤ fuel →
      recursivelyGenerateConsistentSampleWhenPossible rng vp fuel nodes sofar banned ctr ≠
        .out := by
  intro fuel
  induction fuel using Nat.strong_induction_on with
  | _ fuel ih =>
    intro nodes sofar banned ctr hfuel
    cases fuel with
    | zero =>
      have h1 := one_le_loopBound vp nodes banned
      omega
    | succ f =>
      cases nodes with
      | nil =>
        simp [recursivelyGenerateConsistentSampleWhenPossible]
      | cons n rest =>
        simp only [recursivelyGenerateConsistentSampleWhenPossible]
        cases hs : sampleAccordingToRestrictions n sofar
            ((lookupKV vp n.name).getD n.possibleValues) banned (rng ctr) with
        | none => simp
        | some r =>
          cases r with
          | none => simp
          | some v =>
            simp only []
            have hmem := sampleAccordingToRestrictions_mem n sofar _ banned (rng ctr) v hs
            have hrpos := remainingCount_pos _ banned v hmem.1 hmem.2
            simp only [loopBound] at hfuel
            have hprod : remainingCount ((lookupKV vp n.name).getD n.possibleValues) banned *
                (fuelBound vp rest + 1) ≤ f := by omega
            have hBf : fuelBound vp rest + 1 ≤ f := by
              calc fuelBound vp rest + 1
                  = 1 * (fuelBound vp rest + 1) := (Nat.one_mul _).symm
                _ ≤ remainingCount ((lookupKV vp n.name).getD n.possibleValues) banned *
                    (fuelBound vp rest + 1) := Nat.mul_le_mul_right _ hrpos
                _ ≤ f := hprod
            have hinner := ih f (Nat.lt_succ_self f) rest
              (insertKV sofar n.name v) [] (ctr + 1)
              (le_trans (loopBound_le_fuelBound vp rest []) (by omega))
            cases hi : recursivelyGenerateConsistentSampleWhenPossible rng vp f rest
                (insertKV sofar n.name v) [] (ctr + 1) with
            | out => exact absurd hi hinner
            | panic => simp
            | done res c =>
              cases res with
              | some σ => simp
              | none =>
                simp only []
                apply ih f (Nat.lt_succ_self f) (n :: rest)
                  (eraseKV (insertKV sofar n.name v) n.name) (banned ++ [v]) c
                simp only [loopBound]
                have hlt := remainingCount_append_lt
                  ((lookupKV vp n.name).getD n.possibleValues) banned v hmem.1 hmem.2
                set r2 := remainingCount ((lookupKV vp n.name).getD n.possibleValues)
                  (banned ++ [v]) with hr2
                set r1 := remainingCount ((lookupKV vp n.name).getD n.possibleValues)
                  banned with hr1
                have hstep : (r2 + 1) * (fuelBound vp rest + 1) ≤
                    r1 * (fuelBound vp rest + 1) :=
                  Nat.mul_le_mul_right _ (by omega)
                have hexp : (r2 + 1) * (fuelBound vp rest + 1) =
                    r2 * (fuelBound vp rest + 1) + (fuelBound vp rest + 1) :=
                  Nat.succ_mul r2 _
                omega

/-- C7: with the explicitly computed fuel bound, the backtracking restricted
sampler always completes (the fuel is never exhausted, for every prefix
assignment, banned list and random stream); the bound exists because each
failed loop iteration strictly shrinks the not-yet-banned candidate set of
the current node - indeed a drawn value is always a candidate that was not
banned, as the second conjunct states. -/
theorem restricted_sampler_terminates :
    (∀ (bn : BayesianNetwork) (vp : List (String × List String)) (rng : Nat → Frac)
       (ctr : Nat), bn.generateConsistentSampleWhenPossible vp rng ctr ≠ .out)
    ∧ (∀ (n : Node) (pv : StrMap) (poss banned : List String) (anchor : Frac) (v : String),
       sampleAccordingToRestrictions n pv poss banned anchor = some (some v) →
       v ∈ poss ∧ banned.contains v = false) := by
  constructor
  · intro bn vp rng ctr
    exact recGen_ne_out rng vp (fuelBound vp bn.nodesInSamplingOrder)
      bn.nodesInSamplingOrder [] [] ctr (loopBound_le_fuelBound vp _ _)
  · intro n pv poss banned anchor v h
    exact sampleAccordingToRestrictions_mem n pv poss banned anchor v h

def nodeAB : Node :=
  { name := "A", parentNames := [], possibleValues := ["a", "b"],
    conditionalProbs := [("a", JsonVal.num (Frac.ofInt 1))] }

def bnAB : BayesianNetwork := { nodesInSamplingOrder := [nodeAB] }

/-- C7 witness: the theorem applied at a concrete network, restriction map
and draw. -/
theorem restricted_sampler_terminates_witness :
    bnAB.generateConsistentSampleWhenPossible [("A", ["a", "b"])] rngZero 0 ≠ .out
    ∧ ("a" ∈ ["a", "b"] ∧ ["b"].contains "a" = false) :=
  ⟨restricted_sampler_terminates.1 bnAB [("A", ["a", "b"])] rngZero 0,
   restricted_sampler_terminates.2 nodeAB [] ["a", "b"] ["b"] (Frac.ofInt 0) "a" (by decide)⟩

theorem recGen_done_some (rng : Nat → Frac) (vp : List (String × List String)) :
    ∀ (fuel : Nat) (nodes : List Node) (sofar : StrMap) (banned : List String) (ctr : Nat)
      (σ : StrMap) (c : Nat),
      recursivelyGenerateConsistentSampleWhenPossible rng vp fuel nodes sofar banned ctr =
        .done (some σ) c →
      (∀ k, k ∉ nodes.map Node.name → lookupKV σ k = lookupKV sofar k)
      ∧ ((nodes.map Node.name).Nodup →
         ∀ n ∈ nodes, ∃ v, lookupKV σ n.name = some v ∧
           v ∈ (lookupKV vp n.name).getD n.possibleValues) := by
  intro fuel
  induction fuel with
  | zero =>
    intro nodes sofar banned ctr σ c h
    exact absurd h (by simp [recursivelyGenerateConsistentSampleWhenPossible])
  | succ f ih =>
    intro nodes sofar banned ctr σ c h
    cases nodes with
    | nil =>
      simp only [recursivelyGenerateConsistentSampleWhenPossible] at h
      injection h with h1 h2
      injection h1 with h1
      subst h1
      refine ⟨fun k _ => rfl, fun _ n hn => absurd hn (List.not_mem_nil n)⟩
    | cons n rest =>
      simp only [recursivelyGenerateConsistentSampleWhenPossible] at h
      cases hs : sampleAccordingToRestrictions n sofar
          ((lookupKV vp n.name).getD n.possibleValues) banned (rng ctr) with
      | none => simp only [hs] at h; exact absurd h (by simp)
      | some r =>
        cases r with
        | none => simp only [hs] at h; exact absurd h (by simp)
        | some v =>
          simp only [hs] at h
          cases hi : recursivelyGenerateConsistentSampleWhenPossible rng vp f rest
              (insertKV sofar n.name v) [] (ctr + 1) with
          | out => simp only [hi] at h; exact absurd h (by simp)
          | panic => simp only [hi] at h; exact absurd h (by simp)
          | done res c2 =>
            cases res with
            | some ns =>
              simp only [hi, RunRes.done.injEq, Option.some.injEq] at h
              obtain ⟨rfl, rfl⟩ := h
              have IH := ih rest (insertKV sofar n.name v) [] (ctr + 1) _ _ hi
              constructor
              · intro k hk
                have hk1 : k ≠ n.name ∧ k ∉ rest.map Node.name := by
                  simpa using hk
                rw [IH.1 k hk1.2, lookupKV_insert_ne sofar n.name k v hk1.1]
              · intro hnodup m hm
                have hnd : n.name ∉ rest.map Node.name ∧ (rest.map Node.name).Nodup := by
                  simpa using hnodup
                cases hm with
                | head =>
                  refine ⟨v, ?_, ?_⟩
                  · rw [IH.1 n.name hnd.1, lookupKV_insert_self]
                  · exact (sampleAccordingToRestrictions_mem n sofar _ banned (rng ctr) v hs).1
                | tail _ hm2 => exact IH.2 hnd.2 m hm2
            | none =>
              simp only [hi] at h
              have IH := ih (n :: rest) (eraseKV (insertKV sofar n.name v) n.name)
                (banned ++ [v]) c2 σ c h
              constructor
              · intro k hk
                have hk1 : k ≠ n.name ∧ k ∉ rest.map Node.name := by
                  simpa using hk
                rw [IH.1 k hk, lookupKV_erase_ne _ n.name k hk1.1,
                  lookupKV_insert_ne sofar n.name k v hk1.1]
              · exact IH.2

theorem generateSampleAux_spec (rng : Nat → Frac) :
    ∀ (nodes : List Node) (s : StrMap) (ctr : Nat) (σ : StrMap) (c : Nat),
      generateSampleAux rng nodes s ctr = some (σ, c) →
      (∀ k v, lookupKV s k = some v → lookupKV σ k = some v)
      ∧ (∀ k v, lookupKV σ k = some v → lookupKV s k = some v ∨
         ∃ n, n ∈ nodes ∧ n.name = k ∧
           ∃ probabilities,
             (∃ pv, getProbabilitiesGivenKnownValues n pv = some probabilities) ∧
             v ∈ probabilities.map Prod.fst) := by
  intro nodes
  induction nodes with
  | nil =>
    intro s ctr σ c h
    simp only [generateSampleAux] at h
    injection h with h1
    injection h1 with h1 h2
    subst h1
    exact ⟨fun k v hv => hv, fun k v hv => Or.inl hv⟩
  | cons n rest ih =>
    intro s ctr σ c h
    simp only [generateSampleAux] at h
    cases hl : lookupKV s n.name with
    | some w =>
      rw [hl] at h
      have IH := ih s ctr σ c h
      refine ⟨IH.1, fun k v hv => ?_⟩
      rcases IH.2 k v hv with hcase | ⟨m, hm, hname, hrest⟩
      · exact Or.inl hcase
      · exact Or.inr ⟨m, List.mem_cons_of_mem n hm, hname, hrest⟩
    | none =>
      rw [hl] at h
      cases hns : Node.sample n s (rng ctr) with
      | none => rw [hns] at h; cases h
      | some v =>
        rw [hns] at h
        have IH := ih (insertKV s n.name v) (ctr + 1) σ c h
        constructor
        · intro k w hw
          apply IH.1
          by_cases hk : k = n.name
          · subst hk
            rw [hl] at hw
            cases hw
          · rw [lookupKV_insert_ne s n.name k v hk]
            exact hw
        · intro k w hw
          rcases IH.2 k w hw with hcase | ⟨m, hm, hname, hrest⟩
          · by_cases hk : k = n.name
            · subst hk
              rw [lookupKV_insert_self] at hcase
              injection hcase with he
              subst he
              right
              refine ⟨n, List.mem_cons_self n rest, rfl, ?_⟩
              unfold Node.sample at hns
              cases hp : getProbabilitiesGivenKnownValues n s with
              | none => rw [hp] at hns; cases hns
              | some probs =>
                rw [hp] at hns
                exact ⟨probs, ⟨s, hp⟩,
                  sampleRandomValueFromPossibilities_mem _ _ _ _ hns⟩
            · rw [lookupKV_insert_ne s n.name k v hk] at hcase
              exact Or.inl hcase
          · exact Or.inr ⟨m, List.mem_cons_of_mem n hm, hname, hrest⟩

/-- C3 (amended): for every assignment returned by restricted sampling (on a
network with distinct node names), every node is bound to a member of its
restriction list when one is supplied, else of its possible_values list.
For seeded unconditional sampling, seed bindings are returned verbatim with
no membership check against possible_values (see the counterexample), and
every other binding carries a value drawn from the support of the leaf
distribution the CPT walk produced for that node. -/
theorem sampling_membership :
    (∀ (bn : BayesianNetwork) (vp : List (String × List String)) (rng : Nat → Frac)
       (ctr : Nat) (σ : StrMap) (c : Nat),
       (bn.nodesInSamplingOrder.map Node.name).Nodup →
       bn.generateConsistentSampleWhenPossible vp rng ctr = .done (some σ) c →
       ∀ n ∈ bn.nodesInSamplingOrder, ∃ v, lookupKV σ n.name = some v ∧
         v ∈ (lookupKV vp n.name).getD n.possibleValues)
    ∧ (∀ (bn : BayesianNetwork) (seed : StrMap) (rng : Nat → Frac) (ctr : Nat)
        (σ : StrMap) (c : Nat),
       bn.generateSample seed rng ctr = some (σ, c) →
       (∀ k v, lookupKV seed k = some v → lookupKV σ k = some v)
       ∧ (∀ k v, lookupKV σ k = some v → lookupKV seed k = some v ∨
          ∃ n, n ∈ bn.nodesInSamplingOrder ∧ n.name = k ∧
            ∃ probabilities,
              (∃ pv, getProbabilitiesGivenKnownValues n pv = some probabilities) ∧
              v ∈ probabilities.map Prod.fst)) := by
  constructor
  · intro bn vp rng ctr σ c hnodup hrun
    exact (recGen_done_some rng vp (fuelBound vp bn.nodesInSamplingOrder)
      bn.nodesInSamplingOrder [] [] ctr σ c hrun).2 hnodup
  · intro bn seed rng ctr σ c h
    exact generateSampleAux_spec rng bn.nodesInSamplingOrder seed ctr σ c h

/-- C3 witness: the theorem applied at a concrete one-node network under the
restriction A in [a, b]. -/
theorem sampling_membership_witness :
    ∃ v, lookupKV [("A", "a")] nodeAB.name = some v ∧
      v ∈ (lookupKV [("A", ["a", "b"])] nodeAB.name).getD nodeAB.possibleValues :=
  sampling_membership.1 bnAB [("A", ["a", "b"])] rngZero 0 [("A", "a")] 1
    (by decide) (by decide) nodeAB (List.mem_singleton_self nodeAB)

def nodeA1 : Node :=
  { name := "A", parentNames := [], possibleValues := ["a"],
    conditionalProbs := [("a", JsonVal.num (Frac.ofInt 1))] }

def bnA1 : BayesianNetwork := { nodesInSamplingOrder := [nodeA1] }

/-- C3 counterexample: seeded unconditional sampling returns the seed value
z for node A verbatim although the node's possible_values list is [a] - the
claim that every node's chosen value lies in its possible_values list fails
on seeded sampling. -/
theorem generateSample_keeps_seed_outside_possible_values :
    bnA1.generateSample [("A", "z")] rngZero 0 = some ([("A", "z")], 0)
    ∧ ¬ ("z" ∈ nodeA1.possibleValues) := by
  refine ⟨by rfl, by decide⟩

/-- C2: when the merge succeeds and restricted sampling on the input
network fails, GenerateHeaders follows exactly this chain: merged
httpVersion "1" retries with httpVersion forced to "2"; otherwise strict
returns the no-headers error with no header map; otherwise it retries with
locales and devices cleared.  The equation also shows that on this path an
error arises only out of the strict branch or a failing retry (retries have
their headers pascalized, errors propagate unchanged). -/
theorem generateHeaders_fallback_chain (g : HeaderGenerator) (rng : Nat → Frac)
    (fuel : Nat) (options constraints : HeaderConstraints) (ctr c : Nat)
    (hm : mergeOptions g.options options = (constraints, []))
    (hf : g.inputGeneratorNetwork.generateConsistentSampleWhenPossible
        (prepareConstraints g constraints) rng ctr = .done none c) :
    generateHeaders g rng (fuel + 1) options ctr =
      if constraints.httpVersion = "1" then
        pascalizeResult (generateHeaders g rng fuel
          { constraints with httpVersion := "2" } c)
      else if constraints.strict = true then .err noHeadersErrorMessage
      else
        pascalizeResult (generateHeaders g rng fuel
          { constraints with locales := [], devices := [] } c) := by
  simp only [generateHeaders, hm, hf]

def nodeEmptyCPT : Node :=
  { name := "*X", parentNames := [], possibleValues := ["x"],
    conditionalProbs := [] }

def bnFail : BayesianNetwork := { nodesInSamplingOrder := [nodeEmptyCPT] }

def gFail : HeaderGenerator :=
  { headerGeneratorNetwork := emptyNetwork, inputGeneratorNetwork := bnFail,
    uniqueBrowsers := [], options := defaultHeaderOptions }

def mergedStrict : HeaderConstraints :=
  { browserSpecs := [], browsers := SupportedBrowsers, os := SupportedOS,
    devices := SupportedDevices, locales := ["en-US"], httpVersion := "2",
    strict := true }

/-- C2 witness: the theorem applied to a concrete generator whose input
network can never satisfy the constraints, with strict mode requested. -/
theorem generateHeaders_fallback_chain_witness :
    generateHeaders gFail rngZero 1 { strict := true } 0 =
      if mergedStrict.httpVersion = "1" then
        pascalizeResult (generateHeaders gFail rngZero 0
          { mergedStrict with httpVersion := "2" } 0)
      else if mergedStrict.strict = true then .err noHeadersErrorMessage
      else
        pascalizeResult (generateHeaders gFail rngZero 0
          { mergedStrict with locales := [], devices := [] } 0) :=
  generateHeaders_fallback_chain gFail rngZero 0 { strict := true } mergedStrict 0 0
    (by decide) (by decide)

def chromeHttp1String : String := "chrome/100.0.0.0|1"

def chromeRecord : HttpBrowser :=
  { name := some "chrome", version := [100, 0, 0, 0],
    completeString := chromeHttp1String, httpVersion := "1" }

def inputNodeC1 : Node :=
  { name := "*BROWSER_HTTP", parentNames := [],
    possibleValues := [chromeHttp1String],
    conditionalProbs := [(chromeHttp1String, JsonVal.num (Frac.ofInt 1))] }

def headerNodeC1 : Node :=
  { name := "User-Agent", parentNames := [], possibleValues := ["ua"],
    conditionalProbs := [("ua", JsonVal.num (Frac.ofInt 1))] }

def gC1 : HeaderGenerator :=
  { headerGeneratorNetwork := { nodesInSamplingOrder := [headerNodeC1] },
    inputGeneratorNetwork := { nodesInSamplingOrder := [inputNodeC1] },
    uniqueBrowsers := [chromeRecord], options := defaultHeaderOptions }

/-- C1: evaluation at the failing input.  With requested httpVersion "1"
and restricted sampling succeeding, GenerateHeaders reaches its final
return and, because the merged httpVersion is not "2", returns the Go pair
(nil, nil): a nil header map and no error.  The second and third conjuncts
show the discarded work: the header-network sample contained the qualifying
pair User-Agent/ua (key without a leading star, value distinct from the
missing token), which the emit step had kept. -/
theorem generateHeaders_http1_returns_nil :
    generateHeaders gC1 rngZero 3 { httpVersion := "1" } 0 = .ok none 2
    ∧ gC1.headerGeneratorNetwork.generateSample
        [("*BROWSER_HTTP", chromeHttp1String)] rngZero 1 =
      some ([("*BROWSER_HTTP", chromeHttp1String), ("User-Agent", "ua")], 2)
    ∧ generateHeadersFromSample
        [("*BROWSER_HTTP", chromeHttp1String), ("User-Agent", "ua")] =
      [("User-Agent", "ua")] := by
  refine ⟨by decide, by decide, by decide⟩

end Forgeron
